import Mathlib

/-!
Verification of the engagement-calculation engine of the `vantage` repository
(`src/hooks/useEngagementCalculator.ts`) against its natural-language
specification.  The TypeScript source is shallowly embedded below: records
become structures, `Map`/`Set`-based grouping becomes `List.dedup` /
`List.toFinset`, and the floating-point credit arithmetic is carried out in
`ℚ` (exact arithmetic; the JS code computes the same rational sums in IEEE
doubles).
-/

namespace Vantage

/-! ## Data model (from `src/db.ts`) -/

/-- Label record (`db.ts`, `Label`). -/
structure Label where
  id : String := ""
  name : String := ""
  color : String := ""
  description : Option String := none
deriving DecidableEq

/-- PR state, from the TS union literal type. -/
inductive PRState where
  | OPEN
  | CLOSED
  | MERGED
deriving DecidableEq

/-- Issue state, from the TS union literal type. -/
inductive IssueState where
  | OPEN
  | CLOSED
deriving DecidableEq

/-- Linked-PR snapshot carried on an issue (`db.ts`, `LinkedPR`). -/
structure LinkedPR where
  id : Nat := 0
  nodeId : String := ""
  number : Nat := 0
  title : String := ""
  state : PRState := PRState.OPEN
  url : String := ""
  author : String := ""
  createdAt : String := ""
  mergedAt : Option String := none
deriving DecidableEq

/-- Issue record (`db.ts`, `Issue`). -/
structure Issue where
  id : Nat := 0
  nodeId : String := ""
  number : Nat := 0
  title : String := ""
  body : String := ""
  state : IssueState := IssueState.OPEN
  url : String := ""
  createdAt : String := ""
  updatedAt : String := ""
  closedAt : Option String := none
  repository : String := ""
  author : String := ""
  assignees : List String := []
  labels : List Label := []
  linkedPRs : List LinkedPR := []
  lastTeamComment : Option String := none
  lastSyncedAt : String := ""
deriving DecidableEq

/-- Issue comment record (`db.ts`, `Comment`). -/
structure Comment where
  id : Nat := 0
  nodeId : String := ""
  issueId : Nat := 0
  author : String := ""
  body : String := ""
  createdAt : String := ""
  updatedAt : String := ""
  repository : String := ""
deriving DecidableEq

/-- Activity type of a PR activity, from the TS union literal type. -/
inductive PRActivityType where
  | commit
  | review
  | review_comment
deriving DecidableEq

/-- PR activity record (`db.ts`, `PRActivity`). -/
structure PRActivity where
  id : String := ""
  prId : Nat := 0
  prNumber : Nat := 0
  repository : String := ""
  type : PRActivityType := PRActivityType.commit
  author : String := ""
  createdAt : String := ""
deriving DecidableEq

/-- Area of responsibility, as consumed by the calculator
(`useEngagementCalculator.ts`, the `aors` parameter shape). -/
structure Aor where
  id : String := ""
  name : String := ""
  terms : List String := []
deriving DecidableEq

/-! ## Utility functions (`useEngagementCalculator.ts`, lines 63-92) -/

/-- Models `toUtcDateKey`: `new Date(dateStr).toISOString().split('T')[0]`.
All timestamps handled by the engine are normalized ISO8601 UTC strings of
the textual form `YYYY-MM-DDTHH:MM:SSZ` (the spec, section 5, makes this a
stated precondition); for such strings the UTC calendar-day key is exactly
the first ten characters. -/
def toUtcDateKey (dateStr : String) : String :=
  String.mk (dateStr.data.take 10)

/-- Models `countUniqueDays`: the size of the `Set` of UTC day keys. -/
def countUniqueDays (dates : List String) : Nat :=
  (dates.map toUtcDateKey).toFinset.card

/-- The distinct day keys appearing in `groupByDate(items, getDate)`, i.e.
the key set of the returned `Map`.  The JS `Map` iterates keys in first
insertion order while `List.dedup` keeps another order; every use of this
key list in the source is an order-independent sum, so the difference is
immaterial. -/
def groupDates {α : Type} (getDate : α → String) (items : List α) : List String :=
  (items.map (fun i => toUtcDateKey (getDate i))).dedup

/-- Models `groupByDate(items, getDate).get(d) || []`: the sub-list of items
whose day key is `d` (grouping preserves relative order within a group). -/
def groupGet {α : Type} (getDate : α → String) (items : List α) (d : String) : List α :=
  items.filter (fun i => toUtcDateKey (getDate i) == d)

/-- Contiguous-substring test on character lists, used to model the JS
`String.prototype.includes`. -/
def containsSub (hay needle : List Char) : Bool :=
  match hay with
  | [] => needle.isEmpty
  | _ :: t => needle.isPrefixOf hay || containsSub t needle

/-- Models `hay.includes(needle)` on JS strings. -/
def strIncludes (hay needle : String) : Bool :=
  containsSub hay.data needle.data

/-! ## Per-issue-per-member calculator (`calculateIssueEngagement`) -/

/-- Per-date raw tallies (`ActivityDetail`). -/
structure ActivityDetail where
  date : String
  commentCount : Nat
  prActivityCount : Nat
  authorActivityCount : Nat
  reviewActivityCount : Nat
deriving DecidableEq

/-- Result record of `calculateIssueEngagement` (`IssueEngagement`). -/
structure IssueEngagement where
  issueId : Nat
  commDays : Nat
  devDays : Nat
  authorDays : Nat
  reviewerDays : Nat
  commDayCredits : ℚ
  devDayCredits : ℚ
  activityDetails : List ActivityDetail
  totalComments : Nat
  totalPRActivities : Nat
  totalAuthorActivities : Nat
  totalReviewActivities : Nat
deriving DecidableEq

/-- The ids of the PRs linked to `issue`
(`new Set(issue.linkedPRs.map(pr => pr.id))`, membership view). -/
def linkedPRIdList (issue : Issue) : List Nat :=
  issue.linkedPRs.map (fun pr => pr.id)

/-- Models `prAuthorMap.get(prId)` where `prAuthorMap` is built by iterating
`issue.linkedPRs` with `Map.set` (on duplicate ids the last write wins,
hence the reversed search). -/
def prAuthorOf (issue : Issue) (prId : Nat) : Option String :=
  (issue.linkedPRs.reverse.find? (fun pr => pr.id == prId)).map (fun pr => pr.author)

/-- `userIssueComments`: comments on this issue by this user. -/
def userIssueComments (issueId : Nat) (username : String) (comments : List Comment) :
    List Comment :=
  comments.filter (fun c => c.issueId == issueId && c.author == username)

/-- `userIssuePRActivities`: this user's activities on PRs linked to the issue. -/
def userIssuePRActivities (username : String) (prActivities : List PRActivity)
    (issue : Issue) : List PRActivity :=
  prActivities.filter (fun a => (linkedPRIdList issue).contains a.prId && a.author == username)

/-- `authorActivities`: commits on PRs the user authored. -/
def issueAuthorActivities (username : String)
    (prActivities : List PRActivity) (issue : Issue) : List PRActivity :=
  (userIssuePRActivities username prActivities issue).filter
    (fun a => a.type == PRActivityType.commit && prAuthorOf issue a.prId == some username)

/-- `reviewerActivities`: reviews / review comments on PRs authored by someone
else (`prAuthor !== username`). -/
def issueReviewerActivities (username : String)
    (prActivities : List PRActivity) (issue : Issue) : List PRActivity :=
  (userIssuePRActivities username prActivities issue).filter
    (fun a => (a.type == PRActivityType.review || a.type == PRActivityType.review_comment) &&
      !(prAuthorOf issue a.prId == some username))

/-- The addend of the `commDayCredits` loop for day key `d`: `1 / numIssues`
where `numIssues` is the number of distinct issues among the user's global
comments on that day (`issuesOnDay.size`). -/
def commCreditOnDay (allUserComments : List Comment) (d : String) : ℚ :=
  let allCommentsOnDay := groupGet (fun c => c.createdAt) allUserComments d
  let numIssues := ((allCommentsOnDay.map (fun c => c.issueId)).dedup).length
  if 0 < numIssues then 1 / (numIssues : ℚ) else 0

/-- The addend of the `devDayCredits` loop for day key `d`: `1 / numPRs`
where `numPRs` is the number of distinct PRs among the user's global PR
activities on that day (the source counts unique PRs "as a proxy" for
context switches). -/
def devCreditOnDay (allUserPRActivities : List PRActivity) (d : String) : ℚ :=
  let allActivitiesOnDay := groupGet (fun a => a.createdAt) allUserPRActivities d
  let numPRs := ((allActivitiesOnDay.map (fun a => a.prId)).dedup).length
  if 0 < numPRs then 1 / (numPRs : ℚ) else 0

/-- Models `calculateIssueEngagement` (lines 101-208). -/
def calculateIssueEngagement (issueId : Nat) (username : String)
    (comments : List Comment) (prActivities : List PRActivity) (issue : Issue)
    (allUserComments : List Comment) (allUserPRActivities : List PRActivity) :
    IssueEngagement :=
  let uic := userIssueComments issueId username comments
  let uipa := userIssuePRActivities username prActivities issue
  let authorActs := issueAuthorActivities username prActivities issue
  let reviewerActs := issueReviewerActivities username prActivities issue
  let allDates := (uic.map (fun c => toUtcDateKey c.createdAt) ++
    uipa.map (fun a => toUtcDateKey a.createdAt)).dedup
  { issueId := issueId
    commDays := countUniqueDays (uic.map (fun c => c.createdAt))
    devDays := countUniqueDays (uipa.map (fun a => a.createdAt))
    authorDays := countUniqueDays (authorActs.map (fun a => a.createdAt))
    reviewerDays := countUniqueDays (reviewerActs.map (fun a => a.createdAt))
    commDayCredits :=
      ((groupDates (fun c => c.createdAt) uic).map (commCreditOnDay allUserComments)).sum
    devDayCredits :=
      ((groupDates (fun a => a.createdAt) uipa).map (devCreditOnDay allUserPRActivities)).sum
    activityDetails :=
      (allDates.mergeSort (fun a b => decide (b ≤ a))).map (fun dateKey =>
        { date := dateKey
          commentCount := (uic.filter (fun c => toUtcDateKey c.createdAt == dateKey)).length
          prActivityCount := (uipa.filter (fun a => toUtcDateKey a.createdAt == dateKey)).length
          authorActivityCount :=
            (authorActs.filter (fun a => toUtcDateKey a.createdAt == dateKey)).length
          reviewActivityCount :=
            (reviewerActs.filter (fun a => toUtcDateKey a.createdAt == dateKey)).length })
    totalComments := uic.length
    totalPRActivities := uipa.length
    totalAuthorActivities := authorActs.length
    totalReviewActivities := reviewerActs.length }

/-! ## Per-member aggregator (`calculateMemberEngagement`, lines 213-390) -/

/-- One entry of `topAors` (`AorActivity`). -/
structure AorActivity where
  aorId : String
  aorName : String
  activityDays : Nat
deriving DecidableEq

/-- Result record of `calculateMemberEngagement` (`TeamMemberEngagement`).
The `issueEngagements` JS `Map` is modelled as an association list. -/
structure TeamMemberEngagement where
  username : String
  totalActiveDays : Nat
  commDays : Nat
  devDays : Nat
  authorDays : Nat
  reviewerDays : Nat
  commDayCredits : ℚ
  devDayCredits : ℚ
  topAors : List AorActivity
  issueEngagements : List (Nat × IssueEngagement)
deriving DecidableEq

/-- `linkedPRIds` of `calculateMemberEngagement`: every PR id linked to any
tracked issue (membership view of the `Set`). -/
def allLinkedPRIds (issues : List Issue) : List Nat :=
  (issues.flatMap (fun i => i.linkedPRs)).map (fun pr => pr.id)

/-- The member-level `prAuthorMap.get(prId)`: built by iterating all issues
and their linked PRs with `Map.set`, so on duplicate PR ids the last write
wins (hence the reversed search). -/
def globalPRAuthor (issues : List Issue) (prId : Nat) : Option String :=
  ((issues.flatMap (fun i => i.linkedPRs)).reverse.find? (fun pr => pr.id == prId)).map
    (fun pr => pr.author)

/-- `userComments`: all comments by this user (note: not restricted to
comments whose `issueId` resolves to a tracked issue). -/
def memberComments (username : String) (comments : List Comment) : List Comment :=
  comments.filter (fun c => c.author == username)

/-- `userPRActivities`: the user's activities on PRs linked to tracked issues. -/
def memberPRActivities (username : String) (prActivities : List PRActivity)
    (issues : List Issue) : List PRActivity :=
  prActivities.filter (fun a => a.author == username && (allLinkedPRIds issues).contains a.prId)

/-- Member-level `authorActivities`. -/
def memberAuthorActivities (username : String) (userPRActivities : List PRActivity)
    (issues : List Issue) : List PRActivity :=
  userPRActivities.filter
    (fun a => a.type == PRActivityType.commit && globalPRAuthor issues a.prId == some username)

/-- Member-level `reviewerActivities`. -/
def memberReviewerActivities (username : String) (userPRActivities : List PRActivity)
    (issues : List Issue) : List PRActivity :=
  userPRActivities.filter
    (fun a => (a.type == PRActivityType.review || a.type == PRActivityType.review_comment) &&
      !(globalPRAuthor issues a.prId == some username))

/-- `commDaysSet`: the user's distinct comment day keys. -/
def commDaySet (userComments : List Comment) : Finset String :=
  (userComments.map (fun c => toUtcDateKey c.createdAt)).toFinset

/-- `devDaysSet`: the user's distinct PR-activity day keys. -/
def devDaySet (userPRActivities : List PRActivity) : Finset String :=
  (userPRActivities.map (fun a => toUtcDateKey a.createdAt)).toFinset

/-- `issueMap.get(issueId)` where `issueMap = new Map(issues.map(i => [i.id, i]))`
(last write wins on duplicate issue ids). -/
def issueById (issues : List Issue) (issueId : Nat) : Option Issue :=
  issues.reverse.find? (fun i => i.id == issueId)

/-- `issuesWithActivity`: ids of issues the user commented on, together with
ids of issues that link a PR the user has activity on.  The JS `Set`
iterates in first-insertion order; we keep its contents via `dedup`
(insertion order is never used downstream except as iteration for
order-independent accumulations). -/
def issuesWithActivity (userComments : List Comment) (userPRActivities : List PRActivity)
    (issues : List Issue) : List Nat :=
  (userComments.map (fun c => c.issueId) ++
    (issues.filter (fun i =>
      i.linkedPRs.any (fun pr => (userPRActivities.map (fun a => a.prId)).contains pr.id))).map
      (fun i => i.id)).dedup

/-- Does `issue` match `aor`?  Some term of the AoR, lowercased, is a
substring of the lowercased title or of some lowercased label name. -/
def aorMatches (issue : Issue) (aor : Aor) : Bool :=
  aor.terms.any (fun term =>
    let termLower := term.toLower
    strIncludes issue.title.toLower termLower ||
      issue.labels.any (fun l => strIncludes l.name.toLower termLower))

/-- The user's activity day keys on one issue, for the AoR tally:
comment days on the issue united with activity days on its linked PRs
(`allIssueDates`). -/
def issueAorDates (userComments : List Comment) (userPRActivities : List PRActivity)
    (issue : Issue) : Finset String :=
  (((userComments.filter (fun c => c.issueId == issue.id)).map
      (fun c => toUtcDateKey c.createdAt)) ++
    ((userPRActivities.filter (fun a => (linkedPRIdList issue).contains a.prId)).map
      (fun a => toUtcDateKey a.createdAt))).toFinset

/-- `aorActivityDays.get(k)`: the set of day keys accumulated for the AoR id
`k` over all issues the user engaged with; a day set is added whenever some
AoR carrying this id matches the issue. -/
def aorDaySet (userComments : List Comment) (userPRActivities : List PRActivity)
    (issues : List Issue) (aors : List Aor) (k : String) : Finset String :=
  (issuesWithActivity userComments userPRActivities issues).foldl
    (fun s iid =>
      match issueById issues iid with
      | none => s
      | some issue =>
        if (aors.filter (fun a => a.id == k)).any (fun a => aorMatches issue a) then
          s ∪ issueAorDates userComments userPRActivities issue
        else s) ∅

/-- Models `calculateMemberEngagement` (lines 213-390). -/
def calculateMemberEngagement (username : String) (comments : List Comment)
    (prActivities : List PRActivity) (issues : List Issue) (aors : List Aor) :
    TeamMemberEngagement :=
  let userComments := memberComments username comments
  let userPRActivities := memberPRActivities username prActivities issues
  let authorActs := memberAuthorActivities username userPRActivities issues
  let reviewerActs := memberReviewerActivities username userPRActivities issues
  let iwa := issuesWithActivity userComments userPRActivities issues
  { username := username
    totalActiveDays := (commDaySet userComments ∪ devDaySet userPRActivities).card
    commDays := (commDaySet userComments).card
    devDays := (devDaySet userPRActivities).card
    authorDays := ((authorActs.map (fun a => toUtcDateKey a.createdAt)).toFinset).card
    reviewerDays := ((reviewerActs.map (fun a => toUtcDateKey a.createdAt)).toFinset).card
    commDayCredits := ((groupDates (fun c => c.createdAt) userComments).map (fun _ => (1 : ℚ))).sum
    devDayCredits :=
      ((groupDates (fun a => a.createdAt) userPRActivities).map (fun _ => (1 : ℚ))).sum
    topAors :=
      (((aors.map (fun aor =>
          { aorId := aor.id
            aorName := aor.name
            activityDays :=
              (aorDaySet userComments userPRActivities issues aors aor.id).card :
            AorActivity })).filter
        (fun a => decide (0 < a.activityDays))).mergeSort
          (fun a b => decide (b.activityDays ≤ a.activityDays))).take 3
    issueEngagements :=
      iwa.filterMap (fun iid =>
        (issueById issues iid).map (fun issue =>
          (iid, calculateIssueEngagement iid username comments prActivities issue
            userComments userPRActivities))) }

/-! ## Team-level issue effort (`useAllIssuesTeamEffort`, lines 627-753).
The hook's pure computation (everything inside its `useMemo`, given
non-null snapshots) is embedded as `allIssuesTeamEffort`. -/

/-- Result record (`IssueTeamEffort`). -/
structure IssueTeamEffort where
  issueId : Nat
  issueNumber : Nat
  repository : String
  title : String
  state : IssueState
  url : String
  createdAt : String
  updatedAt : String
  closedAt : Option String
  commenterDays : Nat
  authorDays : Nat
  reviewerDays : Nat
  totalEffortDays : Nat
  contributors : List String
deriving DecidableEq

/-- The `(member, date)` pair key used in the `Set`s of
`useAllIssuesTeamEffort`. -/
def pairKey (author dateKey : String) : String :=
  author ++ "|" ++ dateKey

/-- `commentsByIssue.get(issue.id) || []`: the team members' comments on the
issue, in input order (the pre-grouping pass filters by team membership
first). -/
def teamIssueComments (teamMembers : List String) (comments : List Comment)
    (issueId : Nat) : List Comment :=
  comments.filter (fun c => teamMembers.contains c.author && c.issueId == issueId)

/-- `prActivityByIssue.get(issue.id) || []`: the team members' activities on
PRs linked to the issue.  (If an issue lists the same PR id twice the JS
grouping pushes the activity twice; every downstream use is a `Set`, so the
filter view is observationally the same.) -/
def teamIssuePRActivities (teamMembers : List String) (prActivities : List PRActivity)
    (issue : Issue) : List PRActivity :=
  prActivities.filter (fun a =>
    teamMembers.contains a.author && (linkedPRIdList issue).contains a.prId)

/-- `commenterPairs` for one issue. -/
def commenterPairKeys (teamMembers : List String) (comments : List Comment)
    (issueId : Nat) : Finset String :=
  ((teamIssueComments teamMembers comments issueId).map
    (fun c => pairKey c.author (toUtcDateKey c.createdAt))).toFinset

/-- `authorPairs` for one issue: pairs from commits whose PR author (in the
global `prAuthorMap`) is the activity's author. -/
def authorPairKeys (teamMembers : List String) (prActivities : List PRActivity)
    (issues : List Issue) (issue : Issue) : Finset String :=
  (((teamIssuePRActivities teamMembers prActivities issue).filter (fun a =>
      a.type == PRActivityType.commit && globalPRAuthor issues a.prId == some a.author)).map
    (fun a => pairKey a.author (toUtcDateKey a.createdAt))).toFinset

/-- `reviewerPairs` for one issue. -/
def reviewerPairKeys (teamMembers : List String) (prActivities : List PRActivity)
    (issues : List Issue) (issue : Issue) : Finset String :=
  (((teamIssuePRActivities teamMembers prActivities issue).filter (fun a =>
      (a.type == PRActivityType.review || a.type == PRActivityType.review_comment) &&
        !(globalPRAuthor issues a.prId == some a.author))).map
    (fun a => pairKey a.author (toUtcDateKey a.createdAt))).toFinset

/-- `contributors` for one issue: the sorted distinct authors of the issue's
team activities and comments. -/
def issueContributors (teamMembers : List String) (comments : List Comment)
    (prActivities : List PRActivity) (issue : Issue) : List String :=
  (((teamIssuePRActivities teamMembers prActivities issue).map (fun a => a.author) ++
    (teamIssueComments teamMembers comments issue.id).map (fun c => c.author)).dedup).mergeSort
    (fun a b => decide (a ≤ b))

/-- The `IssueTeamEffort` entry for one issue, or `none` when
`totalEffortDays == 0` (such issues are not pushed). -/
def issueTeamEffortEntry (teamMembers : List String) (comments : List Comment)
    (prActivities : List PRActivity) (issues : List Issue) (issue : Issue) :
    Option IssueTeamEffort :=
  let commenterDays := (commenterPairKeys teamMembers comments issue.id).card
  let authorDays := (authorPairKeys teamMembers prActivities issues issue).card
  let reviewerDays := (reviewerPairKeys teamMembers prActivities issues issue).card
  let totalEffortDays := commenterDays + authorDays + reviewerDays
  if 0 < totalEffortDays then
    some
      { issueId := issue.id
        issueNumber := issue.number
        repository := issue.repository
        title := issue.title
        state := issue.state
        url := issue.url
        createdAt := issue.createdAt
        updatedAt := issue.updatedAt
        closedAt := issue.closedAt
        commenterDays := commenterDays
        authorDays := authorDays
        reviewerDays := reviewerDays
        totalEffortDays := totalEffortDays
        contributors := issueContributors teamMembers comments prActivities issue }
  else none

/-- Models the computation of `useAllIssuesTeamEffort`: one entry per issue
with team activity, sorted by `totalEffortDays` descending (stable JS sort
with comparator `b.totalEffortDays - a.totalEffortDays`). -/
def allIssuesTeamEffort (teamMembers : List String) (comments : List Comment)
    (prActivities : List PRActivity) (issues : List Issue) : List IssueTeamEffort :=
  (issues.filterMap (issueTeamEffortEntry teamMembers comments prActivities issues)).mergeSort
    (fun a b => decide (b.totalEffortDays ≤ a.totalEffortDays))

/-! ## Report builder (`useIssueMemberBreakdown`, lines 785-937): the
comment channel keeps, per member and day, the identifier of the latest
comment of that day.  The per-member `commentsByDate` JS `Map` is modelled
as an association list `dateKey ↦ (lastCommentId, lastCommentTime)`. -/

/-- One step of the comment pass (lines 829-848): on a fresh day key the
entry is inserted; an existing entry is replaced exactly when
`comment.createdAt > existing.lastCommentTime` (JS string comparison, i.e.
lexicographic order on the ISO8601 text). -/
def updateLastComment (m : List (String × Nat × String)) (c : Comment) :
    List (String × Nat × String) :=
  let dateKey := toUtcDateKey c.createdAt
  match m.find? (fun e => e.1 == dateKey) with
  | none => m ++ [(dateKey, c.id, c.createdAt)]
  | some e =>
    if e.2.2 < c.createdAt then
      m.map (fun e2 => if e2.1 == dateKey then (dateKey, c.id, c.createdAt) else e2)
    else m

/-- The per-member `commentsByDate` map after processing the member's
comments in input order. -/
def commentsByDate (cs : List Comment) : List (String × Nat × String) :=
  cs.foldl updateLastComment []

/-- The comments of team member `m` on the issue, in input order: the
member's slice of `issueComments` (lines 813-815); processing all of
`issueComments` into per-author maps touches each author's map exactly on
that author's subsequence. -/
def breakdownMemberComments (issueId : Nat) (teamMembers : List String)
    (comments : List Comment) (m : String) : List Comment :=
  (comments.filter (fun c => c.issueId == issueId && teamMembers.contains c.author)).filter
    (fun c => c.author == m)

/-! ## Spec-side definition used for the refinement comparison of the
development-channel credit (claim wording), and concrete witness inputs -/

/-- Modelled from the claim wording, for comparison against the code only:
the set of distinct issues the member touched on UTC day `d` via PR
activity, i.e. the issues having some linked PR carrying one of the
member's activities of that day. -/
def specIssuesTouchedOnDay (issues : List Issue) (allUserPRActivities : List PRActivity)
    (d : String) : Finset Nat :=
  ((issues.filter (fun i =>
    (allUserPRActivities.filter (fun a => toUtcDateKey a.createdAt == d)).any
      (fun a => (linkedPRIdList i).contains a.prId))).map (fun i => i.id)).toFinset

/-- Concrete input for the C1 witness: the spec's Scenario A (alice comments
on issues 1 and 2, both on 2024-01-01, and nothing else). -/
def c1Comments : List Comment :=
  [{ id := 1, issueId := 1, author := "alice", createdAt := "2024-01-01T09:00:00Z" },
   { id := 2, issueId := 2, author := "alice", createdAt := "2024-01-01T12:00:00Z" }]

/-- Concrete input for the C2 counterexample: on one UTC day, member `m`
commits to their own linked PR 1 and reviews the colleague-authored linked
PR 2. -/
def c2Acts : List PRActivity :=
  [{ id := "a1", prId := 1, type := PRActivityType.commit, author := "m",
     createdAt := "2024-02-02T10:00:00Z" },
   { id := "a2", prId := 2, type := PRActivityType.review, author := "m",
     createdAt := "2024-02-02T11:00:00Z" }]

/-- The issue of the C2 counterexample. -/
def c2Issue : Issue :=
  { id := 5, linkedPRs := [{ id := 1, author := "m" }, { id := 2, author := "o" }] }

/-- Concrete input for the C3 counterexample: two same-day activities on two
distinct PRs, both linked to the same single issue. -/
def c3Acts : List PRActivity :=
  [{ id := "b1", prId := 1, author := "m", createdAt := "2024-03-03T08:00:00Z" },
   { id := "b2", prId := 2, author := "m", createdAt := "2024-03-03T09:00:00Z" }]

/-- The issue of the C3 counterexample. -/
def c3Issue : Issue :=
  { id := 5, linkedPRs := [{ id := 1, author := "x" }, { id := 2, author := "y" }] }

/-- The distinct `(member, day-key)` pairs behind `commenterPairs`
(statement-side view of the string-keyed `Set`). -/
def commenterPairs (teamMembers : List String) (comments : List Comment)
    (issueId : Nat) : Finset (String × String) :=
  ((teamIssueComments teamMembers comments issueId).map
    (fun c => (c.author, toUtcDateKey c.createdAt))).toFinset

/-- The distinct `(member, day-key)` pairs behind `authorPairs`. -/
def authorPairs (teamMembers : List String) (prActivities : List PRActivity)
    (issues : List Issue) (issue : Issue) : Finset (String × String) :=
  (((teamIssuePRActivities teamMembers prActivities issue).filter (fun a =>
      a.type == PRActivityType.commit && globalPRAuthor issues a.prId == some a.author)).map
    (fun a => (a.author, toUtcDateKey a.createdAt))).toFinset

/-- The distinct `(member, day-key)` pairs behind `reviewerPairs`. -/
def reviewerPairs (teamMembers : List String) (prActivities : List PRActivity)
    (issues : List Issue) (issue : Issue) : Finset (String × String) :=
  (((teamIssuePRActivities teamMembers prActivities issue).filter (fun a =>
      (a.type == PRActivityType.review || a.type == PRActivityType.review_comment) &&
        !(globalPRAuthor issues a.prId == some a.author))).map
    (fun a => (a.author, toUtcDateKey a.createdAt))).toFinset

/-- Concrete input for the C4 witness: two different team members comment on
the same issue on the same UTC day. -/
def c4Comments : List Comment :=
  [{ id := 1, issueId := 9, author := "a", createdAt := "2024-04-04T08:00:00Z" },
   { id := 2, issueId := 9, author := "b", createdAt := "2024-04-04T09:00:00Z" }]

/-- The issue of the C4 witness. -/
def c4Issue : Issue := { id := 9 }

/-- Concrete input for the C7 witness: two comments by the same member on
the same issue and UTC day, with distinct timestamps. -/
def c7Comments : List Comment :=
  [{ id := 1, issueId := 3, author := "alice", createdAt := "2024-05-05T08:00:00Z" },
   { id := 2, issueId := 3, author := "alice", createdAt := "2024-05-05T11:00:00Z" }]

/-- Concrete inputs for the C8 witness: one AoR whose term matches the
issue title, and one comment by the member on that issue. -/
def c8Aors : List Aor := [{ id := "a1", name := "infra", terms := ["docker"] }]

/-- The issue of the C8 witness. -/
def c8Issue : Issue := { id := 4, title := "Docker build fails" }

/-- The comments of the C8 witness. -/
def c8Comments : List Comment :=
  [{ id := 1, issueId := 4, author := "alice", createdAt := "2024-06-06T10:00:00Z" }]

/-- The dangling comment of the C9 counterexample: its `issueId` 99 matches
no issue in the (empty) issue set. -/
def c9Comment : Comment :=
  { id := 1, issueId := 99, author := "alice", createdAt := "2024-07-07T10:00:00Z" }

/-! ## Helper lemmas -/

theorem toFinset_map_filter_subset {α β : Type} [DecidableEq α] [DecidableEq β]
    (f : α → β) (p : α → Bool) (l : List α) :
    ((l.filter p).map f).toFinset ⊆ (l.map f).toFinset := by
  intro x hx
  simp only [List.mem_toFinset, List.mem_map] at hx ⊢
  obtain ⟨a, ha, rfl⟩ := hx
  exact ⟨a, (List.mem_filter.mp ha).1, rfl⟩

theorem countUniqueDays_comments (cs : List Comment) :
    countUniqueDays (cs.map (fun c => c.createdAt)) = (commDaySet cs).card := by
  simp only [countUniqueDays, commDaySet, List.map_map, Function.comp_def]

theorem countUniqueDays_acts (acts : List PRActivity) :
    countUniqueDays (acts.map (fun a => a.createdAt)) = (devDaySet acts).card := by
  simp only [countUniqueDays, devDaySet, List.map_map, Function.comp_def]

theorem authorDaySet_subset (username : String) (prActivities : List PRActivity)
    (issue : Issue) :
    devDaySet (issueAuthorActivities username prActivities issue) ⊆
      devDaySet (userIssuePRActivities username prActivities issue) := by
  unfold issueAuthorActivities devDaySet
  exact toFinset_map_filter_subset _ _ _

theorem reviewerDaySet_subset (username : String) (prActivities : List PRActivity)
    (issue : Issue) :
    devDaySet (issueReviewerActivities username prActivities issue) ⊆
      devDaySet (userIssuePRActivities username prActivities issue) := by
  unfold issueReviewerActivities devDaySet
  exact toFinset_map_filter_subset _ _ _

/-! ## C10 -/

/-- C10: in `calculateIssueEngagement`, the day-key set with classified
author activity and the day-key set with classified reviewer activity are
each subsets of the day-key set with any PR activity on the issue, so
`authorDays ≤ devDays` and `reviewerDays ≤ devDays` individually. -/
theorem classified_day_sets_subset_dev_days (issueId : Nat) (username : String)
    (comments : List Comment) (prActivities : List PRActivity) (issue : Issue)
    (allUserComments : List Comment) (allUserPRActivities : List PRActivity) :
    devDaySet (issueAuthorActivities username prActivities issue) ⊆
      devDaySet (userIssuePRActivities username prActivities issue) ∧
    devDaySet (issueReviewerActivities username prActivities issue) ⊆
      devDaySet (userIssuePRActivities username prActivities issue) ∧
    (calculateIssueEngagement issueId username comments prActivities issue
        allUserComments allUserPRActivities).authorDays ≤
      (calculateIssueEngagement issueId username comments prActivities issue
        allUserComments allUserPRActivities).devDays ∧
    (calculateIssueEngagement issueId username comments prActivities issue
        allUserComments allUserPRActivities).reviewerDays ≤
      (calculateIssueEngagement issueId username comments prActivities issue
        allUserComments allUserPRActivities).devDays := by
  refine ⟨authorDaySet_subset username prActivities issue,
    reviewerDaySet_subset username prActivities issue, ?_, ?_⟩ <;>
    simp only [calculateIssueEngagement, countUniqueDays_acts, countUniqueDays_comments]
  · exact Finset.card_le_card (authorDaySet_subset username prActivities issue)
  · exact Finset.card_le_card (reviewerDaySet_subset username prActivities issue)

/-! ## C2 -/

/-- C2 (counterexample): with a commit on the member's own linked PR and a
review of a colleague's linked PR on the same UTC day,
`authorDays + reviewerDays = 2 > 1 = devDays`, refuting the claimed bound
`authorDays + reviewerDays ≤ devDays`. -/
theorem role_days_sum_exceeds_devDays :
    ¬ ((calculateIssueEngagement 5 "m" [] c2Acts c2Issue [] c2Acts).authorDays +
        (calculateIssueEngagement 5 "m" [] c2Acts c2Issue [] c2Acts).reviewerDays ≤
        (calculateIssueEngagement 5 "m" [] c2Acts c2Issue [] c2Acts).devDays) := by
  decide

/-- C2 (amended): `authorDays + reviewerDays ≤ devDays + overlap`, where
`overlap` is the number of day keys carrying both classified author and
classified reviewer activity; the original bound without `overlap` fails
exactly when the two classified day sets intersect. -/
theorem role_days_bound_with_overlap (issueId : Nat) (username : String)
    (comments : List Comment) (prActivities : List PRActivity) (issue : Issue)
    (allUserComments : List Comment) (allUserPRActivities : List PRActivity) :
    (calculateIssueEngagement issueId username comments prActivities issue
        allUserComments allUserPRActivities).authorDays +
      (calculateIssueEngagement issueId username comments prActivities issue
        allUserComments allUserPRActivities).reviewerDays ≤
    (calculateIssueEngagement issueId username comments prActivities issue
        allUserComments allUserPRActivities).devDays +
      (devDaySet (issueAuthorActivities username prActivities issue) ∩
        devDaySet (issueReviewerActivities username prActivities issue)).card := by
  simp only [calculateIssueEngagement, countUniqueDays_acts]
  have h := Finset.card_union_add_card_inter
    (devDaySet (issueAuthorActivities username prActivities issue))
    (devDaySet (issueReviewerActivities username prActivities issue))
  have hsub : devDaySet (issueAuthorActivities username prActivities issue) ∪
      devDaySet (issueReviewerActivities username prActivities issue) ⊆
      devDaySet (userIssuePRActivities username prActivities issue) :=
    Finset.union_subset (authorDaySet_subset username prActivities issue)
      (reviewerDaySet_subset username prActivities issue)
  have := Finset.card_le_card hsub
  omega

/-! ## C5 -/

/-- C5: `totalActiveDays` of `calculateMemberEngagement` is the cardinality
of the union of the member's comment-day-key set and PR-activity-day-key
set; together with the inclusion-exclusion identity this shows a day active
in both channels is counted once, never twice. -/
theorem total_active_days_is_union (username : String) (comments : List Comment)
    (prActivities : List PRActivity) (issues : List Issue) (aors : List Aor) :
    (calculateMemberEngagement username comments prActivities issues aors).totalActiveDays =
      (commDaySet (memberComments username comments) ∪
        devDaySet (memberPRActivities username prActivities issues)).card ∧
    (calculateMemberEngagement username comments prActivities issues aors).totalActiveDays +
        (commDaySet (memberComments username comments) ∩
          devDaySet (memberPRActivities username prActivities issues)).card =
      (calculateMemberEngagement username comments prActivities issues aors).commDays +
        (calculateMemberEngagement username comments prActivities issues aors).devDays := by
  refine ⟨rfl, ?_⟩
  simp only [calculateMemberEngagement]
  exact Finset.card_union_add_card_inter _ _

/-! ## C1 -/

theorem dedup_const {α : Type} [DecidableEq α] :
    ∀ (l : List α) (d : α), l ≠ [] → (∀ x ∈ l, x = d) → l.dedup = [d]
  | [], _, hne, _ => absurd rfl hne
  | a :: t, d, _, h => by
    have ha : a = d := h a (List.mem_cons_self a t)
    cases t with
    | nil => simp [ha]
    | cons b t2 =>
      have hb : b = d := h b (by simp)
      have ht : (b :: t2).dedup = [d] :=
        dedup_const (b :: t2) d (by simp) (fun x hx => h x (List.mem_cons_of_mem a hx))
      have hmem : a ∈ b :: t2 := by
        rw [ha, hb]
        exact List.mem_cons_self d t2
      rw [List.dedup_cons_of_mem hmem, ht]

theorem userIssueComments_eq_filter_member (issueId : Nat) (username : String)
    (comments : List Comment) :
    userIssueComments issueId username comments =
      (memberComments username comments).filter (fun c => c.issueId == issueId) := by
  simp only [userIssueComments, memberComments, List.filter_filter]

/-- C1: if all of a member's comments fall on the single UTC day `D` and
touch exactly `k` distinct issues, then `calculateIssueEngagement` assigns
each of those `k` issues a `commDayCredits` contribution of exactly `1/k`
for that day, and the contributions over the `k` issues sum to exactly `1`. -/
theorem comm_credit_conservation (username : String) (comments : List Comment)
    (prActivities : List PRActivity) (issue : Issue)
    (allUserPRActivities : List PRActivity) (D : String) (k : Nat)
    (hday : ∀ c ∈ memberComments username comments, toUtcDateKey c.createdAt = D)
    (hk : ((memberComments username comments).map (fun c => c.issueId)).toFinset.card = k)
    (hkpos : 0 < k) :
    (∀ i ∈ ((memberComments username comments).map (fun c => c.issueId)).toFinset,
      (calculateIssueEngagement i username comments prActivities issue
        (memberComments username comments) allUserPRActivities).commDayCredits =
        1 / (k : ℚ)) ∧
    (∑ i ∈ ((memberComments username comments).map (fun c => c.issueId)).toFinset,
      (calculateIssueEngagement i username comments prActivities issue
        (memberComments username comments) allUserPRActivities).commDayCredits) = 1 := by
  have hcredit : ∀ i ∈ ((memberComments username comments).map
      (fun c => c.issueId)).toFinset,
      (calculateIssueEngagement i username comments prActivities issue
        (memberComments username comments) allUserPRActivities).commDayCredits =
      1 / (k : ℚ) := by
    intro i hi
    simp only [List.mem_toFinset, List.mem_map] at hi
    obtain ⟨c0, hc0, hc0i⟩ := hi
    simp only [calculateIssueEngagement]
    have huic : userIssueComments i username comments =
        (memberComments username comments).filter (fun c => c.issueId == i) :=
      userIssueComments_eq_filter_member i username comments
    have hne : userIssueComments i username comments ≠ [] := by
      rw [huic]
      intro hnil
      have : c0 ∈ (memberComments username comments).filter (fun c => c.issueId == i) :=
        List.mem_filter.mpr ⟨hc0, by simp [hc0i]⟩
      rw [hnil] at this
      exact List.not_mem_nil c0 this
    have hkeys : groupDates (fun c => c.createdAt) (userIssueComments i username comments)
        = [D] := by
      unfold groupDates
      refine dedup_const _ D ?_ ?_
      · simp only [ne_eq, List.map_eq_nil_iff]
        exact hne
      · intro x hx
        simp only [List.mem_map] at hx
        obtain ⟨c, hc, rfl⟩ := hx
        exact hday c (List.mem_filter.mp (huic ▸ hc)).1
    rw [hkeys]
    simp only [List.map_cons, List.map_nil, List.sum_cons, List.sum_nil, add_zero]
    unfold commCreditOnDay groupGet
    have hfull : (memberComments username comments).filter
        (fun c => toUtcDateKey c.createdAt == D) = memberComments username comments := by
      apply List.filter_eq_self.mpr
      intro c hc
      simp [hday c hc]
    have hnum : (((memberComments username comments).map (fun c => c.issueId)).dedup).length
        = k := by
      rw [← List.card_toFinset]
      exact hk
    simp only [hfull, hnum]
    simp [hkpos]
  refine ⟨hcredit, ?_⟩
  rw [Finset.sum_congr rfl hcredit, Finset.sum_const, hk, nsmul_eq_mul]
  rw [mul_one_div, div_self]
  exact_mod_cast Nat.pos_iff_ne_zero.mp hkpos

theorem comm_credit_conservation_witness :
    ((∀ c ∈ memberComments "alice" c1Comments, toUtcDateKey c.createdAt = "2024-01-01") ∧
      ((memberComments "alice" c1Comments).map (fun c => c.issueId)).toFinset.card = 2 ∧
      0 < 2) ∧
    ((∀ i ∈ ((memberComments "alice" c1Comments).map (fun c => c.issueId)).toFinset,
      (calculateIssueEngagement i "alice" c1Comments [] { } (memberComments "alice" c1Comments)
        []).commDayCredits = 1 / ((2 : Nat) : ℚ)) ∧
    (∑ i ∈ ((memberComments "alice" c1Comments).map (fun c => c.issueId)).toFinset,
      (calculateIssueEngagement i "alice" c1Comments [] { } (memberComments "alice" c1Comments)
        []).commDayCredits) = 1) :=
  ⟨⟨by decide, by decide, by decide⟩,
    comm_credit_conservation "alice" c1Comments [] { } [] "2024-01-01" 2
      (by decide) (by decide) (by decide)⟩

/-! ## C3 -/

theorem sum_map_dedup_eq_sum_toFinset {α M : Type} [DecidableEq α] [AddCommMonoid M]
    (l : List α) (f : α → M) : (l.dedup.map f).sum = ∑ x ∈ l.toFinset, f x := by
  have h : l.dedup.toFinset = l.toFinset := by
    ext x
    simp [List.mem_toFinset, List.mem_dedup]
  rw [← h, List.sum_toFinset _ (List.nodup_dedup l)]

/-- C3 (amended): in `calculateIssueEngagement`, for each day-key on which
the member has PR activity relevant to the issue the amount added to
`devDayCredits` is `1/N` where `N` is the number of distinct PRs (not
issues; the source explicitly uses unique PRs as a proxy) the member
touched that day via PR activity across the member's whole history, and
`devDayCredits` is the sum of these fractions over the issue's PR-activity
days. -/
theorem dev_credit_splits_by_distinct_prs (issueId : Nat) (username : String)
    (comments : List Comment) (prActivities : List PRActivity) (issue : Issue)
    (allUserComments : List Comment) (allUserPRActivities : List PRActivity) :
    (calculateIssueEngagement issueId username comments prActivities issue
      allUserComments allUserPRActivities).devDayCredits =
    ∑ d ∈ devDaySet (userIssuePRActivities username prActivities issue),
      (if 0 < ((allUserPRActivities.filter
            (fun a => toUtcDateKey a.createdAt == d)).map (fun a => a.prId)).toFinset.card
        then 1 / ((((allUserPRActivities.filter
            (fun a => toUtcDateKey a.createdAt == d)).map
              (fun a => a.prId)).toFinset.card : Nat) : ℚ)
        else 0) := by
  simp only [calculateIssueEngagement]
  unfold groupDates
  rw [sum_map_dedup_eq_sum_toFinset]
  refine Finset.sum_congr rfl ?_
  intro d _
  unfold devCreditOnDay groupGet
  simp only [List.card_toFinset]

/-- C3 (counterexample): a member whose two same-day activities hit two
distinct linked PRs of one single issue receives `1/2` from the code,
whereas `1/N` with `N` the number of distinct issues touched that day would
be `1/1 = 1`. -/
theorem dev_credit_not_by_issues :
    (calculateIssueEngagement 5 "m" [] c3Acts c3Issue [] c3Acts).devDayCredits = 1 / (2 : ℚ) ∧
    (specIssuesTouchedOnDay [c3Issue] c3Acts "2024-03-03").card = 1 ∧
    (1 / (2 : ℚ)) ≠ 1 / ((1 : Nat) : ℚ) := by
  refine ⟨?_, by decide, by norm_num⟩
  have hkeys : groupDates (fun a => a.createdAt)
      (userIssuePRActivities "m" c3Acts c3Issue) = ["2024-03-03"] := by decide
  have hnum : (((groupGet (fun a => a.createdAt) c3Acts "2024-03-03").map
      (fun a => a.prId)).dedup).length = 2 := by decide
  simp only [calculateIssueEngagement, hkeys, List.map_cons, List.map_nil, List.sum_cons,
    List.sum_nil, add_zero]
  unfold devCreditOnDay
  simp only [hnum]
  norm_num

/-! ## C6 -/

/-- C6: the list produced by `useAllIssuesTeamEffort` contains no entry with
`totalEffortDays = 0`, and it is sorted descending by `totalEffortDays`. -/
theorem team_effort_output_hygiene (teamMembers : List String) (comments : List Comment)
    (prActivities : List PRActivity) (issues : List Issue) :
    (∀ e ∈ allIssuesTeamEffort teamMembers comments prActivities issues,
      0 < e.totalEffortDays) ∧
    List.Pairwise (fun a b => b.totalEffortDays ≤ a.totalEffortDays)
      (allIssuesTeamEffort teamMembers comments prActivities issues) := by
  constructor
  · intro e he
    unfold allIssuesTeamEffort at he
    rw [List.mem_mergeSort] at he
    obtain ⟨issue, _, hent⟩ := List.mem_filterMap.mp he
    unfold issueTeamEffortEntry at hent
    dsimp only at hent
    split at hent
    · cases hent
      assumption
    · cases hent
  · unfold allIssuesTeamEffort
    have hs := @List.sorted_mergeSort IssueTeamEffort
      (fun a b : IssueTeamEffort => decide (b.totalEffortDays ≤ a.totalEffortDays))
      (fun a b c h1 h2 => by
        simp only [decide_eq_true_eq] at h1 h2 ⊢
        omega)
      (fun a b => by
        simp only [Bool.or_eq_true, decide_eq_true_eq]
        exact Nat.le_total _ _)
      (issues.filterMap (issueTeamEffortEntry teamMembers comments prActivities issues))
    exact hs.imp (fun h => of_decide_eq_true h)

/-! ## C4 -/

theorem sep_append_inj :
    ∀ (xs ys as2 bs : List Char), '|' ∉ as2 → '|' ∉ bs →
      xs ++ '|' :: as2 = ys ++ '|' :: bs → xs = ys ∧ as2 = bs := by
  intro xs
  induction xs with
  | nil =>
    intro ys as2 bs ha hb h
    cases ys with
    | nil =>
      simp only [List.nil_append, List.cons.injEq] at h
      exact ⟨rfl, h.2⟩
    | cons y yt =>
      simp only [List.nil_append, List.cons_append, List.cons.injEq] at h
      exact absurd (h.2 ▸ List.mem_append_right yt (List.mem_cons_self '|' bs)) ha
  | cons x xt ih =>
    intro ys as2 bs ha hb h
    cases ys with
    | nil =>
      simp only [List.cons_append, List.nil_append, List.cons.injEq] at h
      exact absurd (h.2.symm ▸ List.mem_append_right xt (List.mem_cons_self '|' as2)) hb
    | cons y yt =>
      simp only [List.cons_append, List.cons.injEq] at h
      obtain ⟨rfl, h2⟩ := h
      obtain ⟨rfl, rfl⟩ := ih yt as2 bs ha hb h2
      exact ⟨rfl, rfl⟩

theorem pairKey_inj {a1 d1 a2 d2 : String} (h1 : '|' ∉ d1.data) (h2 : '|' ∉ d2.data)
    (h : pairKey a1 d1 = pairKey a2 d2) : a1 = a2 ∧ d1 = d2 := by
  have hd : a1.data ++ '|' :: d1.data = a2.data ++ '|' :: d2.data := by
    have hcongr := congrArg String.data h
    simpa [pairKey, String.data_append, List.append_assoc] using hcongr
  obtain ⟨hx, hy⟩ := sep_append_inj _ _ _ _ h1 h2 hd
  exact ⟨congrArg String.mk hx, congrArg String.mk hy⟩

/-- The string-keyed `Set` of `${member}|${dayKey}` entries has the same
cardinality as the set of `(member, dayKey)` pairs, provided no day key
contains the separator. -/
theorem card_pairKey_toFinset {α : Type} [DecidableEq α] (f g : α → String) (l : List α)
    (hg : ∀ x ∈ l, '|' ∉ (g x).data) :
    ((l.map (fun x => pairKey (f x) (g x))).toFinset).card =
      ((l.map (fun x => (f x, g x))).toFinset).card := by
  have h1 : (l.map (fun x => pairKey (f x) (g x))).toFinset =
      ((l.map (fun x => (f x, g x))).toFinset).image (fun p => pairKey p.1 p.2) := by
    ext s
    simp only [List.mem_toFinset, List.mem_map, Finset.mem_image]
    constructor
    · rintro ⟨x, hx, rfl⟩
      exact ⟨(f x, g x), ⟨x, hx, rfl⟩, rfl⟩
    · rintro ⟨p, ⟨x, hx, rfl⟩, rfl⟩
      exact ⟨x, hx, rfl⟩
  rw [h1]
  apply Finset.card_image_of_injOn
  intro p hp q hq hpq
  simp only [Finset.mem_coe, List.mem_toFinset, List.mem_map] at hp hq
  obtain ⟨x, hx, rfl⟩ := hp
  obtain ⟨y, hy, rfl⟩ := hq
  obtain ⟨he1, he2⟩ := pairKey_inj (hg x hx) (hg y hy) hpq
  exact Prod.ext he1 he2

/-- C4: every entry of `useAllIssuesTeamEffort` satisfies
`totalEffortDays = commenterDays + authorDays + reviewerDays`, where each
channel count is the number of distinct `(member, day-key)` pairs for that
channel on the entry's issue (the pipe-separator hypothesis holds for every
well-formed day key, which never contains a pipe character). -/
theorem team_effort_counts_member_day_pairs (teamMembers : List String)
    (comments : List Comment) (prActivities : List PRActivity) (issues : List Issue)
    (hc : ∀ c ∈ comments, '|' ∉ (toUtcDateKey c.createdAt).data)
    (ha : ∀ a ∈ prActivities, '|' ∉ (toUtcDateKey a.createdAt).data) :
    ∀ e ∈ allIssuesTeamEffort teamMembers comments prActivities issues,
      e.totalEffortDays = e.commenterDays + e.authorDays + e.reviewerDays ∧
      ∃ issue ∈ issues, issue.id = e.issueId ∧
        e.commenterDays = (commenterPairs teamMembers comments issue.id).card ∧
        e.authorDays = (authorPairs teamMembers prActivities issues issue).card ∧
        e.reviewerDays = (reviewerPairs teamMembers prActivities issues issue).card := by
  intro e he
  unfold allIssuesTeamEffort at he
  rw [List.mem_mergeSort] at he
  obtain ⟨issue, hissue, hent⟩ := List.mem_filterMap.mp he
  unfold issueTeamEffortEntry at hent
  dsimp only at hent
  split at hent
  · cases hent
    refine ⟨rfl, issue, hissue, rfl, ?_, ?_, ?_⟩
    · show (commenterPairKeys teamMembers comments issue.id).card = _
      unfold commenterPairKeys commenterPairs
      exact card_pairKey_toFinset _ _ _ (fun c hcm =>
        hc c (List.mem_of_mem_filter hcm))
    · show (authorPairKeys teamMembers prActivities issues issue).card = _
      unfold authorPairKeys authorPairs
      exact card_pairKey_toFinset _ _ _ (fun a ham =>
        ha a (List.mem_of_mem_filter (List.mem_of_mem_filter ham)))
    · show (reviewerPairKeys teamMembers prActivities issues issue).card = _
      unfold reviewerPairKeys reviewerPairs
      exact card_pairKey_toFinset _ _ _ (fun a ham =>
        ha a (List.mem_of_mem_filter (List.mem_of_mem_filter ham)))
  · cases hent

/-- C4 (witness): the hypothesis holds on a concrete snapshot where two
different team members comment on the same issue on the same UTC day, the
theorem applies, and the pair set it equates `commenterDays` with has
cardinality 2 there, not 1. -/
theorem team_effort_counts_member_day_pairs_witness :
    ((∀ c ∈ c4Comments, '|' ∉ (toUtcDateKey c.createdAt).data) ∧
      (∀ a ∈ ([] : List PRActivity), '|' ∉ (toUtcDateKey a.createdAt).data)) ∧
    (∀ e ∈ allIssuesTeamEffort ["a", "b"] c4Comments [] [c4Issue],
      e.totalEffortDays = e.commenterDays + e.authorDays + e.reviewerDays ∧
      ∃ issue ∈ [c4Issue], issue.id = e.issueId ∧
        e.commenterDays = (commenterPairs ["a", "b"] c4Comments issue.id).card ∧
        e.authorDays = (authorPairs ["a", "b"] [] [c4Issue] issue).card ∧
        e.reviewerDays = (reviewerPairs ["a", "b"] [] [c4Issue] issue).card) ∧
    (commenterPairs ["a", "b"] c4Comments 9).card = 2 :=
  ⟨⟨by decide, by decide⟩,
    team_effort_counts_member_day_pairs ["a", "b"] c4Comments [] [c4Issue]
      (by decide) (by decide),
    by decide⟩

/-! ## C7 -/

theorem commentsByDate_append_singleton (cs : List Comment) (c : Comment) :
    commentsByDate (cs ++ [c]) = updateLastComment (commentsByDate cs) c := by
  simp [commentsByDate, List.foldl_append]

theorem replace_preserves_key (dk : String) (v : Nat × String)
    (e2 : String × Nat × String) :
    ((if e2.1 == dk then (dk, v) else e2) : String × Nat × String).1 = e2.1 := by
  by_cases h : e2.1 == dk
  · simp only [if_pos h]
    exact (eq_of_beq h).symm
  · simp only [if_neg h]

theorem find?_replace_map (m : List (String × Nat × String)) (dk : String)
    (v : Nat × String) (d : String) :
    (m.map (fun e2 => if e2.1 == dk then (dk, v) else e2)).find? (fun e => e.1 == d) =
      (m.find? (fun e => e.1 == d)).map (fun e2 => if e2.1 == dk then (dk, v) else e2) := by
  have hp : ((fun e : String × Nat × String => e.1 == d) ∘
      (fun e2 : String × Nat × String => if e2.1 == dk then (dk, v) else e2)) =
      (fun e : String × Nat × String => e.1 == d) := by
    funext e2
    simp only [Function.comp_apply]
    rw [replace_preserves_key]
  rw [List.find?_map, hp]

/-- Characterization of the per-member latest-comment map: where the lookup
for day `d` fails there is no comment of day `d`, and where it succeeds the
entry carries the id and timestamp of one of the member's comments of that
day whose timestamp is maximal (in the lexicographic string order the
source compares with). -/
theorem commentsByDate_find_spec (d : String) (cs : List Comment) :
    ((commentsByDate cs).find? (fun e => e.1 == d) = none →
      ∀ c ∈ cs, toUtcDateKey c.createdAt ≠ d) ∧
    (∀ e, (commentsByDate cs).find? (fun e2 => e2.1 == d) = some e →
      e.1 = d ∧ (∃ c ∈ cs, toUtcDateKey c.createdAt = d ∧ e.2.1 = c.id ∧ e.2.2 = c.createdAt) ∧
      ∀ c ∈ cs, toUtcDateKey c.createdAt = d → c.createdAt ≤ e.2.2) := by
  induction cs using List.reverseRecOn with
  | nil =>
    constructor
    · intro _ c hc
      exact absurd hc (List.not_mem_nil c)
    · intro e he
      simp [commentsByDate] at he
  | append_singleton cs c ih =>
    rw [commentsByDate_append_singleton]
    unfold updateLastComment
    rcases hfind : (commentsByDate cs).find?
        (fun e => e.1 == toUtcDateKey c.createdAt) with _ | e0
    all_goals simp only [hfind]
    · -- fresh day key: entry appended
      by_cases hdk : toUtcDateKey c.createdAt = d
      · subst hdk
        have hpos : ((((toUtcDateKey c.createdAt, c.id, c.createdAt) :
            String × Nat × String)).1 == toUtcDateKey c.createdAt) = true :=
          beq_self_eq_true _
        constructor
        · intro hnone
          rw [List.find?_append, hfind, Option.none_or, List.find?_eq_none] at hnone
          exact absurd hpos (hnone _ (List.mem_cons_self _ _))
        · intro e he
          rw [List.find?_append, hfind, Option.none_or, List.find?_cons_eq_some] at he
          rcases he with ⟨_, rfl⟩ | ⟨_, hnil⟩
          swap
          · rw [List.find?_nil] at hnil
            cases hnil
          refine ⟨rfl, ⟨c, List.mem_append_right cs (List.mem_cons_self c []), rfl, rfl, rfl⟩,
            ?_⟩
          intro c2 hc2 hday
          rcases List.mem_append.mp hc2 with hc2l | hc2r
          · exact absurd hday (ih.1 hfind c2 hc2l)
          · rcases List.mem_cons.mp hc2r with rfl | h0
            · exact le_refl _
            · exact absurd h0 (List.not_mem_nil c2)
      · have hne : ((((toUtcDateKey c.createdAt, c.id, c.createdAt) :
            String × Nat × String)).1 == d) = false := by
          simp only [beq_eq_false_iff_ne, ne_eq]
          exact hdk
        have hsingle : (([(toUtcDateKey c.createdAt, c.id, c.createdAt)] :
            List (String × Nat × String)).find? (fun e => e.1 == d)) = none := by
          rw [List.find?_cons_of_neg _ (by rw [hne]; exact Bool.false_ne_true),
            List.find?_nil]
        constructor
        · intro hnone c2 hc2
          rw [List.find?_append, hsingle, Option.or_none] at hnone
          rcases List.mem_append.mp hc2 with hc2l | hc2r
          · exact ih.1 hnone c2 hc2l
          · rcases List.mem_cons.mp hc2r with rfl | h0
            · exact hdk
            · exact absurd h0 (List.not_mem_nil c2)
        · intro e he
          rw [List.find?_append, hsingle, Option.or_none] at he
          obtain ⟨h1, ⟨c1, hc1, hd1, hi1, ht1⟩, hmax⟩ := ih.2 e he
          refine ⟨h1, ⟨c1, List.mem_append_left _ hc1, hd1, hi1, ht1⟩, ?_⟩
          intro c2 hc2 hday
          rcases List.mem_append.mp hc2 with hc2l | hc2r
          · exact hmax c2 hc2l hday
          · rcases List.mem_cons.mp hc2r with rfl | h0
            · exact absurd hday hdk
            · exact absurd h0 (List.not_mem_nil c2)
    · -- existing day key: replaced or kept
      have he0key : (e0.1 == toUtcDateKey c.createdAt) = true := by
        have h := List.find?_some hfind
        exact h
      by_cases hlt : e0.2.2 < c.createdAt
      · -- replaced
        rw [if_pos hlt]
        by_cases hdk : toUtcDateKey c.createdAt = d
        · subst hdk
          constructor
          · intro hnone
            rw [find?_replace_map, hfind] at hnone
            cases hnone
          · intro e he
            rw [find?_replace_map, hfind] at he
            rw [Option.map_some'] at he
            rw [if_pos he0key] at he
            cases he
            obtain ⟨h1, _, hmax⟩ := ih.2 e0 hfind
            refine ⟨rfl, ⟨c, List.mem_append_right cs (List.mem_cons_self c []), rfl, rfl, rfl⟩,
              ?_⟩
            intro c2 hc2 hday
            rcases List.mem_append.mp hc2 with hc2l | hc2r
            · exact le_of_lt (lt_of_le_of_lt (hmax c2 hc2l hday) hlt)
            · rcases List.mem_cons.mp hc2r with rfl | h0
              · exact le_refl _
              · exact absurd h0 (List.not_mem_nil c2)
        · constructor
          · intro hnone c2 hc2
            rw [find?_replace_map] at hnone
            rcases hor : (commentsByDate cs).find? (fun e => e.1 == d) with _ | e1
            · rcases List.mem_append.mp hc2 with hc2l | hc2r
              · exact ih.1 hor c2 hc2l
              · rcases List.mem_cons.mp hc2r with rfl | h0
                · exact hdk
                · exact absurd h0 (List.not_mem_nil c2)
            · rw [hor] at hnone
              cases hnone
          · intro e he
            rw [find?_replace_map] at he
            rcases hor : (commentsByDate cs).find? (fun e2 => e2.1 == d) with _ | e1
            · rw [hor] at he
              cases he
            · rw [hor] at he
              rw [Option.map_some'] at he
              obtain ⟨h1, ⟨c1, hc1, hd1, hi1, ht1⟩, hmax⟩ := ih.2 e1 hor
              have he1key : (e1.1 == toUtcDateKey c.createdAt) = false := by
                simp only [beq_eq_false_iff_ne, ne_eq, h1]
                intro hcontra
                exact hdk hcontra.symm
              rw [if_neg (by rw [he1key]; exact Bool.false_ne_true)] at he
              cases he
              refine ⟨h1, ⟨c1, List.mem_append_left _ hc1, hd1, hi1, ht1⟩, ?_⟩
              intro c2 hc2 hday
              rcases List.mem_append.mp hc2 with hc2l | hc2r
              · exact hmax c2 hc2l hday
              · rcases List.mem_cons.mp hc2r with rfl | h0
                · exact absurd hday hdk
                · exact absurd h0 (List.not_mem_nil c2)
      · -- kept unchanged
        rw [if_neg hlt]
        constructor
        · intro hnone c2 hc2
          rcases List.mem_append.mp hc2 with hc2l | hc2r
          · exact ih.1 hnone c2 hc2l
          · rcases List.mem_cons.mp hc2r with rfl | h0
            · intro hday
              rw [List.find?_eq_none] at hnone
              refine hnone e0 (List.mem_of_find?_eq_some hfind) ?_
              rw [show e0.1 = toUtcDateKey c2.createdAt from eq_of_beq he0key, hday]
              exact beq_self_eq_true d
            · exact absurd h0 (List.not_mem_nil c2)
        · intro e he
          obtain ⟨h1, ⟨c1, hc1, hd1, hi1, ht1⟩, hmax⟩ := ih.2 e he
          refine ⟨h1, ⟨c1, List.mem_append_left _ hc1, hd1, hi1, ht1⟩, ?_⟩
          intro c2 hc2 hday
          rcases List.mem_append.mp hc2 with hc2l | hc2r
          · exact hmax c2 hc2l hday
          · rcases List.mem_cons.mp hc2r with rfl | h0
            · have hsame : e = e0 := by
                have h0 : (commentsByDate cs).find? (fun e2 => e2.1 == d) = some e0 := by
                  rw [show d = toUtcDateKey c2.createdAt from hday.symm]
                  exact hfind
                rw [h0] at he
                exact (Option.some.inj he).symm
              rw [hsame]
              exact le_of_not_lt hlt
            · exact absurd h0 (List.not_mem_nil c2)

theorem commentsByDate_keys_nodup (cs : List Comment) :
    ((commentsByDate cs).map (fun e => e.1)).Nodup := by
  induction cs using List.reverseRecOn with
  | nil => simp [commentsByDate]
  | append_singleton cs c ih =>
    rw [commentsByDate_append_singleton]
    unfold updateLastComment
    rcases hfind : (commentsByDate cs).find?
        (fun e => e.1 == toUtcDateKey c.createdAt) with _ | e0
    all_goals simp only [hfind]
    · rw [List.map_append]
      refine List.Nodup.append ih (List.nodup_singleton _) ?_
      intro a ha ha2
      rw [List.find?_eq_none] at hfind
      simp only [List.map_cons, List.map_nil, List.mem_singleton] at ha2
      obtain ⟨e, he, rfl⟩ := List.mem_map.mp ha
      exact absurd (by rw [ha2]; exact beq_self_eq_true _) (hfind e he)
    · by_cases hlt : e0.2.2 < c.createdAt
      · rw [if_pos hlt, List.map_map]
        have hcomp : ((fun e : String × Nat × String => e.1) ∘
            (fun e2 : String × Nat × String =>
              if e2.1 == toUtcDateKey c.createdAt then
                (toUtcDateKey c.createdAt, c.id, c.createdAt) else e2)) =
            (fun e : String × Nat × String => e.1) := by
          funext e2
          simp only [Function.comp_apply]
          exact replace_preserves_key _ _ e2
        rw [hcomp]
        exact ih
      · rw [if_neg hlt]
        exact ih

theorem nodup_keys_filter_length (d : String) :
    ∀ (M : List (String × Nat × String)), ((M.map (fun e => e.1)).Nodup) →
      ∀ e, M.find? (fun x => x.1 == d) = some e →
        (M.filter (fun x => x.1 == d)).length = 1 := by
  intro M
  induction M with
  | nil =>
    intro _ e he
    rw [List.find?_nil] at he
    cases he
  | cons a t ih =>
    intro hnd e he
    rw [List.map_cons, List.nodup_cons] at hnd
    rw [List.find?_cons_eq_some] at he
    rcases he with ⟨hpa, rfl⟩ | ⟨hpa, het⟩
    · have hrest : t.filter (fun x => x.1 == d) = [] := by
        rw [List.filter_eq_nil_iff]
        intro x hx hxd
        exact hnd.1 (List.mem_map.mpr ⟨x, hx,
          by rw [eq_of_beq hxd, eq_of_beq hpa]⟩)
      simp [List.filter_cons, hpa, hrest]
    · have hpa2 : (a.1 == d) = false := by
        simpa using hpa
      simp only [List.filter_cons, hpa2, Bool.false_eq_true, if_false]
      exact ih hnd.2 e het

/-- C7: for every member and every day-key with at least one of that
member's comments on the issue, the per-member `commentsByDate` map keeps
exactly one entry for that day, carrying the identifier and timestamp of
one of that member's comments of the day whose ISO8601 `createdAt` string
is lexicographically greatest among them. -/
theorem latest_comment_kept_per_day (issueId : Nat) (teamMembers : List String)
    (comments : List Comment) (m : String) (d : String)
    (h : ∃ c ∈ breakdownMemberComments issueId teamMembers comments m,
      toUtcDateKey c.createdAt = d) :
    ∃ cid ct,
      (commentsByDate (breakdownMemberComments issueId teamMembers comments m)).find?
        (fun e => e.1 == d) = some (d, cid, ct) ∧
      ((commentsByDate (breakdownMemberComments issueId teamMembers comments m)).filter
        (fun e => e.1 == d)).length = 1 ∧
      ∃ c ∈ breakdownMemberComments issueId teamMembers comments m,
        cid = c.id ∧ ct = c.createdAt ∧ toUtcDateKey c.createdAt = d ∧
        ∀ c2 ∈ breakdownMemberComments issueId teamMembers comments m,
          toUtcDateKey c2.createdAt = d → c2.createdAt ≤ ct := by
  obtain ⟨c0, hc0, hd0⟩ := h
  rcases hfind : (commentsByDate
      (breakdownMemberComments issueId teamMembers comments m)).find?
      (fun e => e.1 == d) with _ | e
  · exact absurd hd0
      ((commentsByDate_find_spec d (breakdownMemberComments issueId teamMembers comments m)).1
        hfind c0 hc0)
  · obtain ⟨h1, ⟨c1, hc1, hdc1, hi1, ht1⟩, hmax⟩ :=
      (commentsByDate_find_spec d (breakdownMemberComments issueId teamMembers comments m)).2
        e hfind
    refine ⟨e.2.1, e.2.2, ?_, ?_, c1, hc1, hi1, ht1, hdc1,
      fun c2 hc2 hday => hmax c2 hc2 hday⟩
    · have heta : e = (d, e.2.1, e.2.2) := by
        rw [← h1]
      rw [← heta]
      exact hfind
    · exact nodup_keys_filter_length d _
        (commentsByDate_keys_nodup (breakdownMemberComments issueId teamMembers comments m))
        e hfind

/-- C7 (witness): with two same-day comments by one member, the hypothesis
holds and the theorem applies; the kept identifier is that of the later
comment. -/
theorem latest_comment_kept_per_day_witness :
    (∃ c ∈ breakdownMemberComments 3 ["alice"] c7Comments "alice",
      toUtcDateKey c.createdAt = "2024-05-05") ∧
    (∃ cid ct,
      (commentsByDate (breakdownMemberComments 3 ["alice"] c7Comments "alice")).find?
        (fun e => e.1 == "2024-05-05") = some ("2024-05-05", cid, ct) ∧
      ((commentsByDate (breakdownMemberComments 3 ["alice"] c7Comments "alice")).filter
        (fun e => e.1 == "2024-05-05")).length = 1 ∧
      ∃ c ∈ breakdownMemberComments 3 ["alice"] c7Comments "alice",
        cid = c.id ∧ ct = c.createdAt ∧ toUtcDateKey c.createdAt = "2024-05-05" ∧
        ∀ c2 ∈ breakdownMemberComments 3 ["alice"] c7Comments "alice",
          toUtcDateKey c2.createdAt = "2024-05-05" → c2.createdAt ≤ ct) :=
  ⟨by decide,
    latest_comment_kept_per_day 3 ["alice"] c7Comments "alice" "2024-05-05" (by decide)⟩

/-! ## C8 -/

theorem isPrefixOf_iff_exists :
    ∀ (l1 l2 : List Char), l1.isPrefixOf l2 = true ↔ ∃ t, l2 = l1 ++ t
  | [], l2 => by simp [List.isPrefixOf]
  | a :: as, [] => by simp [List.isPrefixOf]
  | a :: as, b :: bs => by
    simp only [List.isPrefixOf, Bool.and_eq_true, beq_iff_eq]
    constructor
    · rintro ⟨rfl, h⟩
      obtain ⟨t, rfl⟩ := (isPrefixOf_iff_exists as bs).mp h
      exact ⟨t, rfl⟩
    · rintro ⟨t, ht⟩
      rw [List.cons_append, List.cons.injEq] at ht
      exact ⟨ht.1.symm, (isPrefixOf_iff_exists as bs).mpr ⟨t, ht.2⟩⟩

theorem containsSub_iff :
    ∀ (h n : List Char), containsSub h n = true ↔ ∃ pre post, h = pre ++ n ++ post
  | [], n => by
    simp only [containsSub, List.isEmpty_iff]
    constructor
    · rintro rfl
      exact ⟨[], [], rfl⟩
    · rintro ⟨pre, post, hp⟩
      exact (List.append_eq_nil.mp (List.append_eq_nil.mp hp.symm).1).2
  | c :: t, n => by
    simp only [containsSub, Bool.or_eq_true]
    rw [isPrefixOf_iff_exists, containsSub_iff t n]
    constructor
    · rintro (⟨post, hp⟩ | ⟨pre, post, hp⟩)
      · exact ⟨[], post, by simpa using hp⟩
      · exact ⟨c :: pre, post, by simp [hp]⟩
    · rintro ⟨pre, post, hp⟩
      cases pre with
      | nil => exact Or.inl ⟨post, by simpa using hp⟩
      | cons p pt =>
        simp only [List.cons_append, List.cons.injEq] at hp
        exact Or.inr ⟨pt, post, hp.2⟩

theorem strIncludes_iff (hay needle : String) :
    strIncludes hay needle = true ↔
      ∃ pre post, hay.data = pre ++ needle.data ++ post :=
  containsSub_iff hay.data needle.data

theorem filter_id_singleton :
    ∀ (aors : List Aor), ((aors.map (fun a => a.id)).Nodup) →
      ∀ {aor : Aor}, aor ∈ aors → aors.filter (fun a => a.id == aor.id) = [aor] := by
  intro aors
  induction aors with
  | nil =>
    intro _ aor ha
    cases ha
  | cons b t ih =>
    intro hids aor ha
    rw [List.map_cons, List.nodup_cons] at hids
    rcases List.mem_cons.mp ha with rfl | hat
    · have hrest : t.filter (fun a => a.id == aor.id) = [] := by
        rw [List.filter_eq_nil_iff]
        intro x hx hxd
        exact hids.1 (List.mem_map.mpr ⟨x, hx, eq_of_beq hxd⟩)
      simp [List.filter_cons, hrest]
    · have hbne : (b.id == aor.id) = false := by
        simp only [beq_eq_false_iff_ne, ne_eq]
        intro he
        exact hids.1 (he ▸ List.mem_map.mpr ⟨aor, hat, rfl⟩)
      simp only [List.filter_cons, hbne, Bool.false_eq_true, if_false]
      exact ih hids.2 hat

theorem foldl_match_union (issues : List Issue) (P : Issue → Bool)
    (G : Issue → Finset String) :
    ∀ (l : List Nat) (A : Finset String),
      l.foldl (fun s iid =>
        match issueById issues iid with
        | none => s
        | some issue => if P issue then s ∪ G issue else s) A =
      A ∪ l.toFinset.biUnion (fun iid =>
        match issueById issues iid with
        | none => ∅
        | some issue => if P issue then G issue else ∅) := by
  intro l
  induction l with
  | nil =>
    intro A
    simp
  | cons i t ih =>
    intro A
    rw [List.foldl_cons, ih, List.toFinset_cons, Finset.biUnion_insert]
    rcases h : issueById issues i with _ | issue
    · simp [h]
    · by_cases hp : P issue
      · simp [h, hp, Finset.union_assoc]
      · simp [h, hp]

theorem aorDaySet_eq_biUnion (userComments : List Comment)
    (userPRActivities : List PRActivity) (issues : List Issue) (aors : List Aor)
    (k : String) :
    aorDaySet userComments userPRActivities issues aors k =
      (issuesWithActivity userComments userPRActivities issues).toFinset.biUnion (fun iid =>
        match issueById issues iid with
        | none => ∅
        | some issue =>
          if (aors.filter (fun a => a.id == k)).any (fun a => aorMatches issue a) then
            issueAorDates userComments userPRActivities issue
          else ∅) := by
  have h := foldl_match_union issues
    (fun issue => (aors.filter (fun a => a.id == k)).any (fun a => aorMatches issue a))
    (issueAorDates userComments userPRActivities)
    (issuesWithActivity userComments userPRActivities issues) ∅
  exact h.trans (Finset.empty_union _)

/-- C8: `topAors` has at most 3 entries, all with positive day counts,
sorted descending; each entry comes from a configured AoR whose day count
is the size of the union of the member's per-issue day sets over the
engaged issues that AoR matches; and an issue matches an AoR exactly when
some term, lowercased, occurs as a substring of the lowercased title or of
some lowercased label name. -/
theorem top_aors_spec (username : String) (comments : List Comment)
    (prActivities : List PRActivity) (issues : List Issue) (aors : List Aor)
    (hids : (aors.map (fun a => a.id)).Nodup) :
    (calculateMemberEngagement username comments prActivities issues aors).topAors.length ≤ 3 ∧
    (∀ x ∈ (calculateMemberEngagement username comments prActivities issues aors).topAors,
      0 < x.activityDays) ∧
    List.Pairwise (fun x y => y.activityDays ≤ x.activityDays)
      (calculateMemberEngagement username comments prActivities issues aors).topAors ∧
    (∀ x ∈ (calculateMemberEngagement username comments prActivities issues aors).topAors,
      ∃ aor ∈ aors, x.aorId = aor.id ∧ x.aorName = aor.name ∧
        x.activityDays = ((issuesWithActivity (memberComments username comments)
            (memberPRActivities username prActivities issues) issues).toFinset.biUnion
          (fun iid =>
            match issueById issues iid with
            | none => ∅
            | some issue =>
              if aorMatches issue aor then
                issueAorDates (memberComments username comments)
                  (memberPRActivities username prActivities issues) issue
              else ∅)).card) ∧
    (∀ (issue : Issue) (aor : Aor), aorMatches issue aor = true ↔
      ∃ term ∈ aor.terms,
        (∃ pre post, issue.title.toLower.data = pre ++ term.toLower.data ++ post) ∨
        ∃ lb ∈ issue.labels,
          ∃ pre post, lb.name.toLower.data = pre ++ term.toLower.data ++ post) := by
  have hT : (calculateMemberEngagement username comments prActivities issues aors).topAors =
      (((aors.map (fun aor =>
        { aorId := aor.id, aorName := aor.name,
          activityDays := (aorDaySet (memberComments username comments)
            (memberPRActivities username prActivities issues) issues aors aor.id).card :
          AorActivity })).filter (fun a => decide (0 < a.activityDays))).mergeSort
        (fun a b => decide (b.activityDays ≤ a.activityDays))).take 3 := rfl
  have hmem : ∀ x ∈ (calculateMemberEngagement username comments
      prActivities issues aors).topAors,
      0 < x.activityDays ∧ ∃ aor ∈ aors, x =
        { aorId := aor.id, aorName := aor.name,
          activityDays := (aorDaySet (memberComments username comments)
            (memberPRActivities username prActivities issues) issues aors aor.id).card :
          AorActivity } := by
    intro x hx
    rw [hT] at hx
    have hx2 := List.mem_mergeSort.mp (List.mem_of_mem_take hx)
    obtain ⟨hx3, hx4⟩ := List.mem_filter.mp hx2
    obtain ⟨aor, haor, rfl⟩ := List.mem_map.mp hx3
    exact ⟨of_decide_eq_true hx4, aor, haor, rfl⟩
  refine ⟨?_, fun x hx => (hmem x hx).1, ?_, ?_, ?_⟩
  · rw [hT]
    exact List.length_take_le 3 _
  · rw [hT]
    have hs := @List.sorted_mergeSort AorActivity
      (fun a b : AorActivity => decide (b.activityDays ≤ a.activityDays))
      (fun a b c h1 h2 => by
        simp only [decide_eq_true_eq] at h1 h2 ⊢
        omega)
      (fun a b => by
        simp only [Bool.or_eq_true, decide_eq_true_eq]
        exact Nat.le_total _ _)
      ((aors.map (fun aor =>
        { aorId := aor.id, aorName := aor.name,
          activityDays := (aorDaySet (memberComments username comments)
            (memberPRActivities username prActivities issues) issues aors aor.id).card :
          AorActivity })).filter (fun a => decide (0 < a.activityDays)))
    exact List.Pairwise.sublist (List.take_sublist 3 _)
      (hs.imp (fun h => of_decide_eq_true h))
  · intro x hx
    obtain ⟨_, aor, haor, rfl⟩ := hmem x hx
    refine ⟨aor, haor, rfl, rfl, ?_⟩
    show (aorDaySet (memberComments username comments)
      (memberPRActivities username prActivities issues) issues aors aor.id).card = _
    rw [aorDaySet_eq_biUnion]
    congr 1
    apply Finset.biUnion_congr rfl
    intro iid _
    rcases h : issueById issues iid with _ | issue
    · rfl
    · rw [filter_id_singleton aors hids haor]
      simp [List.any_cons]
  · intro issue aor
    unfold aorMatches
    rw [List.any_eq_true]
    constructor
    · rintro ⟨term, hterm, hmatch⟩
      simp only [Bool.or_eq_true] at hmatch
      rcases hmatch with hm | hm
      · exact ⟨term, hterm, Or.inl ((strIncludes_iff _ _).mp hm)⟩
      · obtain ⟨lb, hlb, hlm⟩ := List.any_eq_true.mp hm
        exact ⟨term, hterm, Or.inr ⟨lb, hlb, (strIncludes_iff _ _).mp hlm⟩⟩
    · rintro ⟨term, hterm, hcase⟩
      refine ⟨term, hterm, ?_⟩
      simp only [Bool.or_eq_true]
      rcases hcase with hm | ⟨lb, hlb, hm⟩
      · exact Or.inl ((strIncludes_iff _ _).mpr hm)
      · exact Or.inr (List.any_eq_true.mpr ⟨lb, hlb, (strIncludes_iff _ _).mpr hm⟩)

/-- C8 (witness): the distinct-id hypothesis holds for a concrete AoR
configuration and the theorem applies to it. -/
theorem top_aors_spec_witness :
    ((c8Aors.map (fun a => a.id)).Nodup) ∧
    ((calculateMemberEngagement "alice" c8Comments [] [c8Issue] c8Aors).topAors.length ≤ 3 ∧
    (∀ x ∈ (calculateMemberEngagement "alice" c8Comments [] [c8Issue] c8Aors).topAors,
      0 < x.activityDays) ∧
    List.Pairwise (fun x y => y.activityDays ≤ x.activityDays)
      (calculateMemberEngagement "alice" c8Comments [] [c8Issue] c8Aors).topAors ∧
    (∀ x ∈ (calculateMemberEngagement "alice" c8Comments [] [c8Issue] c8Aors).topAors,
      ∃ aor ∈ c8Aors, x.aorId = aor.id ∧ x.aorName = aor.name ∧
        x.activityDays = ((issuesWithActivity (memberComments "alice" c8Comments)
            (memberPRActivities "alice" [] [c8Issue]) [c8Issue]).toFinset.biUnion
          (fun iid =>
            match issueById [c8Issue] iid with
            | none => ∅
            | some issue =>
              if aorMatches issue aor then
                issueAorDates (memberComments "alice" c8Comments)
                  (memberPRActivities "alice" [] [c8Issue]) issue
              else ∅)).card) ∧
    (∀ (issue : Issue) (aor : Aor), aorMatches issue aor = true ↔
      ∃ term ∈ aor.terms,
        (∃ pre post, issue.title.toLower.data = pre ++ term.toLower.data ++ post) ∨
        ∃ lb ∈ issue.labels,
          ∃ pre post, lb.name.toLower.data = pre ++ term.toLower.data ++ post)) :=
  ⟨by decide, top_aors_spec "alice" c8Comments [] [c8Issue] c8Aors (by decide)⟩

/-! ## C9 -/

theorem filterMap_congr_mem {α β : Type} {f g : α → Option β} :
    ∀ {l : List α}, (∀ x ∈ l, f x = g x) → l.filterMap f = l.filterMap g
  | [], _ => rfl
  | x :: t, h => by
    rw [List.filterMap_cons, List.filterMap_cons, h x (List.mem_cons_self x t),
      filterMap_congr_mem (fun y hy => h y (List.mem_cons_of_mem x hy))]

theorem filter_middle {α : Type} (p : α → Bool) (l1 l2 : List α) (b : α)
    (hb : p b = false) : (l1 ++ b :: l2).filter p = (l1 ++ l2).filter p := by
  simp [List.filter_append, List.filter_cons, hb]

theorem issueById_mem {issues : List Issue} {iid : Nat} {issue : Issue}
    (h : issueById issues iid = some issue) : issue ∈ issues ∧ issue.id = iid := by
  unfold issueById at h
  have hm := List.mem_of_find?_eq_some h
  have hp := List.find?_some h
  exact ⟨List.mem_reverse.mp hm, eq_of_beq hp⟩

theorem linked_sub {issues : List Issue} {issue : Issue} (hm : issue ∈ issues)
    {pid : Nat} (h : (allLinkedPRIds issues).contains pid = false) :
    (linkedPRIdList issue).contains pid = false := by
  cases hx : (linkedPRIdList issue).contains pid
  · rfl
  · exfalso
    have h2 : pid ∈ linkedPRIdList issue := by
      simpa using hx
    obtain ⟨pr, hpr, rfl⟩ := List.mem_map.mp h2
    have h3 : pr.id ∈ allLinkedPRIds issues :=
      List.mem_map.mpr ⟨pr, List.mem_flatMap.mpr ⟨issue, hm, hpr⟩, rfl⟩
    have h4 : (allLinkedPRIds issues).contains pr.id = true := by
      simpa using h3
    rw [h4] at h
    cases h

theorem userIssuePRActivities_middle (username : String) {issues : List Issue}
    {issue : Issue} (hm : issue ∈ issues) (l1 l2 : List PRActivity) (a : PRActivity)
    (ha : (allLinkedPRIds issues).contains a.prId = false) :
    userIssuePRActivities username (l1 ++ a :: l2) issue =
      userIssuePRActivities username (l1 ++ l2) issue := by
  unfold userIssuePRActivities
  apply filter_middle
  rw [linked_sub hm ha]
  rfl

theorem calcIE_middle (issueId : Nat) (username : String) (comments : List Comment)
    {issues : List Issue} {issue : Issue} (hm : issue ∈ issues)
    (uc : List Comment) (upa : List PRActivity) (l1 l2 : List PRActivity)
    (a : PRActivity) (ha : (allLinkedPRIds issues).contains a.prId = false) :
    calculateIssueEngagement issueId username comments (l1 ++ a :: l2) issue uc upa =
      calculateIssueEngagement issueId username comments (l1 ++ l2) issue uc upa := by
  have h := userIssuePRActivities_middle username hm l1 l2 a ha
  simp only [calculateIssueEngagement, issueAuthorActivities, issueReviewerActivities, h]

theorem memberPRActivities_middle (username : String) (issues : List Issue)
    (l1 l2 : List PRActivity) (a : PRActivity)
    (ha : (allLinkedPRIds issues).contains a.prId = false) :
    memberPRActivities username (l1 ++ a :: l2) issues =
      memberPRActivities username (l1 ++ l2) issues := by
  unfold memberPRActivities
  apply filter_middle
  rw [ha, Bool.and_false]

/-- C9 (amended): a PR activity whose `prId` is linked to no tracked issue
contributes to no aggregate of `calculateMemberEngagement` (removing it
leaves the whole result unchanged), and every `issueEngagements` key is
the id of an issue in the issue set, so a comment whose `issueId` resolves
to no issue yields no per-issue entry; neither case is an error (the
calculator is a total function).  Dangling comments do, however, still
feed the member-level comment day counts and credits (see the
counterexample). -/
theorem dangling_refs_behavior (username : String) (comments : List Comment)
    (prActivities : List PRActivity) (issues : List Issue) (aors : List Aor)
    (l1 l2 : List PRActivity) (a : PRActivity)
    (ha : (allLinkedPRIds issues).contains a.prId = false) :
    calculateMemberEngagement username comments (l1 ++ a :: l2) issues aors =
      calculateMemberEngagement username comments (l1 ++ l2) issues aors ∧
    ∀ p ∈ (calculateMemberEngagement username comments prActivities
        issues aors).issueEngagements,
      ∃ i ∈ issues, i.id = p.1 := by
  constructor
  · have hm := memberPRActivities_middle username issues l1 l2 a ha
    simp only [calculateMemberEngagement, hm]
    congr 1
    apply filterMap_congr_mem
    intro iid _
    rcases h0 : issueById issues iid with _ | issue
    · rfl
    · rw [Option.map_some', Option.map_some']
      have hmem := (issueById_mem h0).1
      rw [calcIE_middle iid username comments hmem _ _ l1 l2 a ha]
  · intro p hp
    obtain ⟨iid, _, hmap⟩ := List.mem_filterMap.mp hp
    rcases h0 : issueById issues iid with _ | issue
    · rw [h0] at hmap
      cases hmap
    · rw [h0, Option.map_some'] at hmap
      cases hmap
      obtain ⟨hmem2, hid⟩ := issueById_mem h0
      exact ⟨issue, hmem2, hid⟩

/-- C9 (witness): the hypothesis holds for an activity on PR 7 with an
empty issue set, and the theorem applies. -/
theorem dangling_refs_behavior_witness :
    ((allLinkedPRIds ([] : List Issue)).contains
      ({ prId := 7 : PRActivity }).prId = false) ∧
    (calculateMemberEngagement "alice" [] ([] ++ ({ prId := 7 : PRActivity }) :: []) [] [] =
      calculateMemberEngagement "alice" [] ([] ++ []) [] [] ∧
    ∀ p ∈ (calculateMemberEngagement "alice" [] [] [] []).issueEngagements,
      ∃ i ∈ ([] : List Issue), i.id = p.1) :=
  ⟨by decide, dangling_refs_behavior "alice" [] [] [] [] [] [] { prId := 7 } (by decide)⟩

/-- C9 (counterexample): a member whose only comment references a
nonexistent issue still gets `commDays = 1`, `totalActiveDays = 1` and
`commDayCredits = 1` (with no `issueEngagements` entry), whereas the claim
predicts the dangling comment contributes to no aggregate (all zero, as on
the empty input). -/
theorem dangling_comment_counts_in_member_days :
    (calculateMemberEngagement "alice" [c9Comment] [] [] []).commDays = 1 ∧
    (calculateMemberEngagement "alice" [c9Comment] [] [] []).totalActiveDays = 1 ∧
    (calculateMemberEngagement "alice" [c9Comment] [] [] []).commDayCredits = 1 ∧
    (calculateMemberEngagement "alice" [c9Comment] [] [] []).issueEngagements = [] ∧
    (calculateMemberEngagement "alice" [] [] [] []).commDays = 0 := by
  refine ⟨by decide, by decide, ?_, by decide, by decide⟩
  show ((groupDates (fun c => c.createdAt)
    (memberComments "alice" [c9Comment])).map (fun _ => (1 : ℚ))).sum = 1
  have h : groupDates (fun c => c.createdAt) (memberComments "alice" [c9Comment]) =
      ["2024-07-07"] := by decide
  rw [h]
  norm_num

end Vantage
